import Mathlib

/-!
Verification of the polystat spatial layout and viewport engine.

Shallow embedding of the honeycomb layout, viewport zoom/pan,
virtualization culling, threshold coloring, cluster auto-zoom,
filter-stack state machine and adaptive text fitting of the
polystat frontend.  JavaScript numbers are modelled as exact
rationals where the code only uses field operations and as real
numbers where `Math.sqrt` is involved; NaN/Infinity guards of the
source are vacuous in these models and noted where they occur.
-/

namespace Polystat

/-- Color constants from `constants/ui.ts` (`COLORS`). -/
def COLORS_CRITICAL : String := "#e63946"

/-- Warning color from `constants/ui.ts`. -/
def COLORS_WARNING : String := "#f77f00"

/-- Normal color from `constants/ui.ts`. -/
def COLORS_NORMAL : String := "#06d6a0"

/-- A metric item handed to the engine, from `types/polystat.ts`
(`MetricPoint`): name, numeric value, labels, optional explicit color.
The timestamp and group decoration fields are irrelevant to the
verified claims and omitted. -/
structure MetricPoint where
  name : String
  value : ℚ
  labels : List (String × String)
  color : Option String := none
deriving Repr, DecidableEq

/-- Adaptive zoom bounds, the result shape of the `zoomLimits` memo in
`HexGrid.tsx`. -/
structure ZoomLimits where
  min : ℚ
  max : ℚ
  initial : ℚ
deriving Repr, DecidableEq

/-- `zoomLimits` from `HexGrid.tsx` lines 126-156: adaptive zoom bounds
from the hexagon radius and the container dimensions.  The
`typeof/isNaN` validity test on a dimension is modelled as positivity. -/
def zoomLimits (hexSizeValue width height : ℚ) : ZoomLimits :=
  let validWidth := if 0 < width then width else 800
  let validHeight := if 0 < height then height else 600
  let hexagonScreenSize := hexSizeValue
  let minVisibleHexRadius : ℚ := 6
  let minZoom := minVisibleHexRadius / hexagonScreenSize
  let maxHexRadiusScreen := min validWidth validHeight * 0.4
  let maxZoom := maxHexRadiusScreen / hexagonScreenSize
  let safeMinZoom := max 0.01 (min minZoom 1)
  let safeMaxZoom := max (safeMinZoom * 2) (min maxZoom 50)
  { min := safeMinZoom
    max := safeMaxZoom
    initial := min 1 (safeMaxZoom * 0.3) }

/-- Pan offset of the viewport transform. -/
structure Pan where
  x : ℚ
  y : ℚ
deriving Repr, DecidableEq

/-- Viewport state `(zoom, pan)` of `HexGrid.tsx`. -/
structure ViewportState where
  zoom : ℚ
  pan : Pan
deriving Repr, DecidableEq

/-- `handleZoom` from `HexGrid.tsx` lines 387-435 (branch with a wheel
event): clamp `zoom + delta*0.3` to the adaptive limits, cap at 6,
and recompute the pan so the logical point under the mouse stays put.
The `isNaN/isFinite` fallbacks of the source never fire over ℚ. -/
def handleZoom (limits : ZoomLimits) (s : ViewportState) (delta mouseX mouseY : ℚ) :
    ViewportState :=
  let zoomSpeed : ℚ := 0.3
  let newZoom := s.zoom + delta * zoomSpeed
  let clamped0 := max limits.min (min limits.max newZoom)
  let clampedZoom := if 6 < clamped0 then 6 else clamped0
  let worldX := (mouseX - s.pan.x) / s.zoom
  let worldY := (mouseY - s.pan.y) / s.zoom
  { zoom := clampedZoom
    pan := { x := mouseX - worldX * clampedZoom, y := mouseY - worldY * clampedZoom } }

/-! Claim C1: zoom bound ordering. -/

/-- C1 counterexample: with cell radius 6 and a 30×30 container the code
computes `min = 1`, `max = 2`, `initial = 0.6`, so `min ≤ initial` fails. -/
theorem C1_cex_initial_lt_min :
    ¬ ((zoomLimits 6 30 30).min ≤ (zoomLimits 6 30 30).initial) := by
  norm_num [zoomLimits]

/-- C1 (amended): for every positive cell radius and container rect, the
computed zoom bounds satisfy `min ≥ 0.01`, `max ≥ 2*min`, `max ≤ 50`,
`initial = min(1, max*0.3)` and `initial ≤ max`; the ordering
`min ≤ initial` is not guaranteed and holds exactly when
`10*min ≤ 3*max`. -/
theorem C1_amended_zoom_bounds (r w h : ℚ) (hr : 0 < r) :
    0.01 ≤ (zoomLimits r w h).min ∧
    2 * (zoomLimits r w h).min ≤ (zoomLimits r w h).max ∧
    (zoomLimits r w h).max ≤ 50 ∧
    (zoomLimits r w h).initial = min 1 ((zoomLimits r w h).max * 0.3) ∧
    (zoomLimits r w h).initial ≤ (zoomLimits r w h).max ∧
    ((zoomLimits r w h).min ≤ (zoomLimits r w h).initial ↔
      10 * (zoomLimits r w h).min ≤ 3 * (zoomLimits r w h).max) := by
  simp only [zoomLimits]
  set vw := if 0 < w then w else 800 with hvw
  set vh := if 0 < h then h else 600 with hvh
  set m := max (0.01 : ℚ) (min (6 / r) 1) with hm
  set M := max (m * 2) (min (min vw vh * 0.4 / r) 50) with hM
  have h1 : (0.01 : ℚ) ≤ m := le_max_left _ _
  have hm1 : m ≤ 1 := max_le (by norm_num) (min_le_right _ _)
  have h2 : 2 * m ≤ M := by
    have := le_max_left (m * 2) (min (min vw vh * 0.4 / r) 50)
    linarith
  have h3 : M ≤ 50 := max_le (by linarith) (min_le_right _ _)
  have h5 : min 1 (M * 0.3) ≤ M := by
    have := min_le_right (1 : ℚ) (M * 0.3)
    linarith
  refine ⟨h1, h2, h3, trivial, h5, ?_⟩
  constructor
  · intro hle
    have := le_min_iff.mp hle
    linarith [this.2]
  · intro hle
    exact le_min hm1 (by linarith)

/-- C1 witness: the amended bound properties at radius 20 in an 800×600
container. -/
theorem C1_witness_zoom_bounds :
    0.01 ≤ (zoomLimits 20 800 600).min ∧
    2 * (zoomLimits 20 800 600).min ≤ (zoomLimits 20 800 600).max ∧
    (zoomLimits 20 800 600).max ≤ 50 ∧
    (zoomLimits 20 800 600).initial = min 1 ((zoomLimits 20 800 600).max * 0.3) ∧
    (zoomLimits 20 800 600).initial ≤ (zoomLimits 20 800 600).max ∧
    ((zoomLimits 20 800 600).min ≤ (zoomLimits 20 800 600).initial ↔
      10 * (zoomLimits 20 800 600).min ≤ 3 * (zoomLimits 20 800 600).max) :=
  C1_amended_zoom_bounds 20 800 600 (by norm_num)

/-! Claim C2: mouse-anchored zoom invariant. -/

/-- C2: if the current zoom is within the (positive) bounds, and the new
zoom `zoom + delta*0.3` stays strictly inside the bounds and under the
global cap 6, then any logical point `(lx, ly)` that mapped to the
anchor screen point under the old transform still maps to it after
`handleZoom`. -/
theorem C2_zoom_anchor_invariant (limits : ZoomLimits) (s : ViewportState)
    (delta mouseX mouseY lx ly : ℚ)
    (hminpos : 0 < limits.min)
    (hzlo : limits.min ≤ s.zoom) (hzhi : s.zoom ≤ limits.max)
    (hlo : limits.min < s.zoom + delta * 0.3) (hhi : s.zoom + delta * 0.3 < limits.max)
    (hcap : s.zoom + delta * 0.3 < 6)
    (hx : lx * s.zoom + s.pan.x = mouseX) (hy : ly * s.zoom + s.pan.y = mouseY) :
    lx * (handleZoom limits s delta mouseX mouseY).zoom
        + (handleZoom limits s delta mouseX mouseY).pan.x = mouseX ∧
    ly * (handleZoom limits s delta mouseX mouseY).zoom
        + (handleZoom limits s delta mouseX mouseY).pan.y = mouseY := by
  have hz : s.zoom ≠ 0 := ne_of_gt (lt_of_lt_of_le hminpos hzlo)
  have hwx : (mouseX - s.pan.x) / s.zoom = lx := by
    field_simp [← hx]
  have hwy : (mouseY - s.pan.y) / s.zoom = ly := by
    field_simp [← hy]
  simp only [handleZoom, hwx, hwy]
  constructor <;> ring

/-- C2 witness: the anchored-zoom invariant at radius-20 bounds in an
800×600 container, zoom 1, wheel delta 1, anchor (100, 50). -/
theorem C2_witness_zoom_anchor :
    100 * (handleZoom (zoomLimits 20 800 600) ⟨1, ⟨0, 0⟩⟩ 1 100 50).zoom
        + (handleZoom (zoomLimits 20 800 600) ⟨1, ⟨0, 0⟩⟩ 1 100 50).pan.x = 100 ∧
    50 * (handleZoom (zoomLimits 20 800 600) ⟨1, ⟨0, 0⟩⟩ 1 100 50).zoom
        + (handleZoom (zoomLimits 20 800 600) ⟨1, ⟨0, 0⟩⟩ 1 100 50).pan.y = 50 :=
  C2_zoom_anchor_invariant (zoomLimits 20 800 600) ⟨1, ⟨0, 0⟩⟩ 1 100 50 100 50
    (by norm_num [zoomLimits]) (by norm_num [zoomLimits]) (by norm_num [zoomLimits])
    (by norm_num [zoomLimits]) (by norm_num [zoomLimits]) (by norm_num)
    (by norm_num) (by norm_num)

/-! Claim C3: zero wheel delta. -/

/-- C3 counterexample: at zoom 10 (inside the adaptive bounds, whose max
is 40 for radius 20 in a 2000×2000 container, but above the global cap
6), a zero-delta `handleZoom` call changes the state: the zoom is
clamped down to 6 and the pan is recomputed. -/
theorem C3_cex_zero_delta_changes_state :
    handleZoom (zoomLimits 20 2000 2000) ⟨10, ⟨0, 0⟩⟩ 0 100 100 ≠ ⟨10, ⟨0, 0⟩⟩ := by
  simp only [handleZoom, zoomLimits, ViewportState.mk.injEq]
  norm_num

/-- C3 (amended): a zero-delta `handleZoom` call leaves zoom and pan
unchanged provided the current zoom lies within the (positive) bounds
and does not exceed the global cap 6. -/
theorem C3_amended_zero_delta_id (limits : ZoomLimits) (s : ViewportState)
    (mouseX mouseY : ℚ)
    (hminpos : 0 < limits.min)
    (hzlo : limits.min ≤ s.zoom) (hzhi : s.zoom ≤ limits.max) (hcap : s.zoom ≤ 6) :
    handleZoom limits s 0 mouseX mouseY = s := by
  obtain ⟨z, ⟨px, py⟩⟩ := s
  simp only [handleZoom] at *
  have hz : z ≠ 0 := ne_of_gt (lt_of_lt_of_le hminpos hzlo)
  have h0 : z + 0 * 0.3 = z := by ring
  rw [h0, min_eq_right hzhi, max_eq_right hzlo, if_neg (not_lt.mpr hcap)]
  simp only [ViewportState.mk.injEq, Pan.mk.injEq]
  refine ⟨trivial, ?_, ?_⟩ <;> field_simp

/-- C3 witness: zero-delta invariance at zoom 1 within the radius-20
bounds of an 800×600 container. -/
theorem C3_witness_zero_delta :
    handleZoom (zoomLimits 20 800 600) ⟨1, ⟨5, 7⟩⟩ 0 3 4 = ⟨1, ⟨5, 7⟩⟩ :=
  C3_amended_zero_delta_id (zoomLimits 20 800 600) ⟨1, ⟨5, 7⟩⟩ 3 4
    (by norm_num [zoomLimits]) (by norm_num [zoomLimits]) (by norm_num [zoomLimits])
    (by norm_num)

/-- A positioned honeycomb cell, the `HexCoord` record of `HexGrid.tsx`:
grid column `q`, grid row `r`, logical center `(x, y)` and the carried
item.  Parametric in the number type so that the sqrt-free culling code
can be stated over ℚ and the layout code over ℝ. -/
structure HexCoord (K : Type) where
  q : ℕ
  r : ℕ
  x : K
  y : K
  data : MetricPoint
deriving Repr, DecidableEq

/-- `visibleHexCoords` from `HexGrid.tsx` lines 636-657: virtualization
culling.  Small lists (≤ 1000 cells) pass through unmodified; larger
lists are filtered to the cells whose center lies in the visible
logical rectangle padded by twice the cell radius. -/
def visibleHexCoords (hexCoords : List (HexCoord ℚ)) (pan : Pan)
    (zoom width height hexSizeValue : ℚ) : List (HexCoord ℚ) :=
  if hexCoords.length ≤ 1000 then hexCoords
  else
    let viewportLeft := -pan.x / zoom
    let viewportRight := (-pan.x + width) / zoom
    let viewportTop := -pan.y / zoom
    let viewportBottom := (-pan.y + height) / zoom
    let padding := hexSizeValue * 2
    hexCoords.filter (fun coord =>
      decide (viewportLeft ≤ coord.x + padding) &&
      decide (coord.x - padding ≤ viewportRight) &&
      decide (viewportTop ≤ coord.y + padding) &&
      decide (coord.y - padding ≤ viewportBottom))

/-! Claim C6: virtualization culling. -/

/-- C6: for nonzero zoom, culling returns the input unmodified when it
has at most 1000 cells, otherwise exactly the cells whose center lies
in the visible logical rectangle `[-pan/zoom, (-pan+rect)/zoom]`
expanded by `2*cellRadius` per side; in all cases the result is an
order-preserving sublist of the input. -/
theorem C6_cull_visible (cells : List (HexCoord ℚ)) (pan : Pan)
    (zoom width height hexSizeValue : ℚ) (hz : zoom ≠ 0) :
    (cells.length ≤ 1000 →
      visibleHexCoords cells pan zoom width height hexSizeValue = cells) ∧
    (1000 < cells.length →
      ∀ c, c ∈ visibleHexCoords cells pan zoom width height hexSizeValue ↔
        c ∈ cells ∧
        (-pan.x / zoom - 2 * hexSizeValue ≤ c.x ∧
         c.x ≤ (-pan.x + width) / zoom + 2 * hexSizeValue ∧
         -pan.y / zoom - 2 * hexSizeValue ≤ c.y ∧
         c.y ≤ (-pan.y + height) / zoom + 2 * hexSizeValue)) ∧
    (visibleHexCoords cells pan zoom width height hexSizeValue).Sublist cells := by
  refine ⟨?_, ?_, ?_⟩
  · intro hle
    simp only [visibleHexCoords, if_pos hle]
  · intro hgt c
    rw [visibleHexCoords, if_neg (by omega)]
    simp only [List.mem_filter, Bool.and_eq_true, decide_eq_true_eq]
    constructor
    · rintro ⟨hc, ⟨⟨⟨h1, h2⟩, h3⟩, h4⟩⟩
      exact ⟨hc, by linarith, by linarith, by linarith, by linarith⟩
    · rintro ⟨hc, h1, h2, h3, h4⟩
      exact ⟨hc, ⟨⟨⟨by linarith, by linarith⟩, by linarith⟩, by linarith⟩⟩
  · rw [visibleHexCoords]
    split
    · exact List.Sublist.refl _
    · exact List.filter_sublist _

/-- A sample metric item used by concrete witness instances. -/
def sampleItem : MetricPoint := { name := "a", value := 1, labels := [], color := none }

/-- C6 witness: a one-element cell list passes through culling
unmodified. -/
theorem C6_witness_small_list :
    visibleHexCoords [⟨0, 0, 0, 0, sampleItem⟩] ⟨0, 0⟩ 1 800 600 10 =
      [⟨0, 0, 0, 0, sampleItem⟩] :=
  (C6_cull_visible [⟨0, 0, 0, 0, sampleItem⟩] ⟨0, 0⟩ 1 800 600 10 (by norm_num)).1
    (by simp)

/-- Label lookup on the association-list model of a JS record. -/
def lookupLabel (m : MetricPoint) (k : String) : Option String :=
  (m.labels.find? (fun p => p.1 == k)).map (·.2)

/-- The summary test `item.labels?.type !== 'summary'` of
`processedData` in `HexGrid.tsx`. -/
def isSummary (m : MetricPoint) : Bool :=
  lookupLabel m "type" == some "summary"

/-- `Math.min(...values)` over a nonempty list (the empty case never
occurs at the call site). -/
def listMin : List ℚ → ℚ
  | [] => 0
  | v :: vs => vs.foldl min v

/-- `Math.max(...values)` over a nonempty list. -/
def listMax : List ℚ → ℚ
  | [] => 0
  | v :: vs => vs.foldl max v

/-- Threshold classification level from `processedData`. -/
inductive ThresholdLevel
  | normal
  | warning
  | critical
deriving Repr, DecidableEq

/-- An item after the color-classification step: the spread
`{...item, thresholdLevel, color}` of `HexGrid.tsx` lines 172-205,
with `color` updated in place and the level attached (absent on the
early-return path that hands items through untouched). -/
structure ProcessedPoint where
  point : MetricPoint
  thresholdLevel : Option ThresholdLevel
deriving Repr, DecidableEq

/-- The per-item body of the `data.map` in `processedData`
(`HexGrid.tsx` lines 172-205): summary items keep their explicit color
(default gray), all other items receive the threshold color derived
from `ratio = (value - min) / range`. -/
def processItem (minVal range : ℚ) (item : MetricPoint) : ProcessedPoint :=
  if isSummary item then
    ⟨{ item with color := some (item.color.getD "#6B7280") }, some ThresholdLevel.normal⟩
  else if 0 < range then
    let ratio := (item.value - minVal) / range
    if 0.66 ≤ ratio then
      ⟨{ item with color := some COLORS_CRITICAL }, some ThresholdLevel.critical⟩
    else if 0.33 ≤ ratio then
      ⟨{ item with color := some COLORS_WARNING }, some ThresholdLevel.warning⟩
    else
      ⟨{ item with color := some COLORS_NORMAL }, some ThresholdLevel.normal⟩
  else
    ⟨{ item with color := some COLORS_NORMAL }, some ThresholdLevel.normal⟩

/-- `processedData` from `HexGrid.tsx` lines 159-206: threshold-based
color classification over the non-summary value range. -/
def processedData (data : List MetricPoint) : List ProcessedPoint :=
  if data.length = 0 then []
  else
    let normalMetrics := data.filter (fun item => !(isSummary item))
    if normalMetrics.length = 0 then data.map (fun item => ⟨item, none⟩)
    else
      let values := normalMetrics.map (·.value)
      let minVal := listMin values
      let maxVal := listMax values
      let range := maxVal - minVal
      data.map (processItem minVal range)

/-- `fillColor` from the `Hexagon` component: the rendered fill is the
(processed) item color, falling back to blue. -/
def fillColor (m : MetricPoint) : String := m.color.getD "#3B82F6"

/-! Claim C7: explicit colors versus threshold classification. -/

/-- An item with an explicit color and the maximal value, used to refute
the claim that explicit colors survive classification. -/
def cexItemA : MetricPoint := { name := "a", value := 100, labels := [], color := some "#123456" }

/-- A plain companion item giving the value range `[0, 100]`. -/
def cexItemB : MetricPoint := { name := "b", value := 0, labels := [], color := none }

/-- C7 counterexample: a non-summary item with explicit color
`"#123456"` and top-of-range value is re-colored to the critical
threshold color by `processedData`, and rendered with it — the explicit
color is not left in effect. -/
theorem C7_cex_explicit_color_overwritten :
    (processedData [cexItemA, cexItemB]).map (fun p => p.point.color) =
      [some "#e63946", some "#06d6a0"] ∧
    cexItemA.color = some "#123456" ∧
    ((processedData [cexItemA, cexItemB]).head?.map (fun p => fillColor p.point)) =
      some "#e63946" := by
  norm_num [processedData, processItem, listMin, listMax, isSummary, lookupLabel,
    cexItemA, cexItemB, fillColor, List.filter, List.find?,
    COLORS_CRITICAL, COLORS_WARNING, COLORS_NORMAL]

/-- Positional behavior of the classification map: the processed item
keeps its explicit color only on the summary branch; otherwise it gets
one of the three threshold colors regardless of any explicit color. -/
theorem processItem_map_spec (m R : ℚ) (data : List MetricPoint) (i : ℕ)
    (hi : i < data.length) :
    ∃ p, (data.map (processItem m R))[i]? = some p ∧
      (isSummary (data.get ⟨i, hi⟩) = true →
        p.point.color = some ((data.get ⟨i, hi⟩).color.getD "#6B7280")) ∧
      (isSummary (data.get ⟨i, hi⟩) = false →
        ∃ c, p.point.color = some c ∧
          (c = COLORS_NORMAL ∨ c = COLORS_WARNING ∨ c = COLORS_CRITICAL)) := by
  refine ⟨processItem m R (data.get ⟨i, hi⟩), ?_, ?_, ?_⟩
  · rw [List.getElem?_map, List.getElem?_eq_getElem hi]
    simp [List.get_eq_getElem]
  · intro hsum
    simp only [processItem, if_pos hsum]
  · intro hsum
    have hns : ¬ (isSummary (data.get ⟨i, hi⟩) = true) := by
      simp only [List.get_eq_getElem] at hsum ⊢
      simp [hsum]
    simp only [processItem, if_neg hns]
    split_ifs with h1 h2 h3
    · exact ⟨_, rfl, Or.inr (Or.inr rfl)⟩
    · exact ⟨_, rfl, Or.inr (Or.inl rfl)⟩
    · exact ⟨_, rfl, Or.inl rfl⟩
    · exact ⟨_, rfl, Or.inl rfl⟩

/-- C7 (amended): the classification step preserves an explicit color
only for summary items (`labels.type = "summary"`); every non-summary
item leaves the step carrying one of the three threshold colors, so an
explicit color on a non-summary item is not kept. -/
theorem C7_amended_summary_only (data : List MetricPoint) (i : ℕ) (hi : i < data.length)
    (hne : (data.filter (fun it => !(isSummary it))).length ≠ 0) :
    (processedData data).length = data.length ∧
    ∃ p, (processedData data)[i]? = some p ∧
      (isSummary (data.get ⟨i, hi⟩) = true →
        p.point.color = some ((data.get ⟨i, hi⟩).color.getD "#6B7280")) ∧
      (isSummary (data.get ⟨i, hi⟩) = false →
        ∃ c, p.point.color = some c ∧
          (c = COLORS_NORMAL ∨ c = COLORS_WARNING ∨ c = COLORS_CRITICAL)) := by
  have h0 : ¬ data.length = 0 := by
    intro h
    exact hne (by simp [List.length_eq_zero.mp h])
  simp only [processedData, if_neg h0, if_neg hne]
  exact ⟨List.length_map _ _, processItem_map_spec _ _ data i hi⟩

/-- C7 witness: the amended statement at the one-element non-summary
list. -/
theorem C7_witness_summary_only :
    (processedData [cexItemB]).length = [cexItemB].length ∧
    ∃ p, (processedData [cexItemB])[0]? = some p ∧
      (isSummary ([cexItemB].get ⟨0, by simp⟩) = true →
        p.point.color = some (([cexItemB].get ⟨0, by simp⟩).color.getD "#6B7280")) ∧
      (isSummary ([cexItemB].get ⟨0, by simp⟩) = false →
        ∃ c, p.point.color = some c ∧
          (c = COLORS_NORMAL ∨ c = COLORS_WARNING ∨ c = COLORS_CRITICAL)) :=
  C7_amended_summary_only [cexItemB] 0 (by simp)
    (by simp [isSummary, lookupLabel, cexItemB])

/-- A grouping bucket from `App.tsx` (`groupedData`): the distinct label
value and the metrics carrying it. -/
structure MetricGroup where
  groupValue : String
  metrics : List MetricPoint
deriving Repr, DecidableEq

/-- The `baseZoom` band selection of `groupedClusterLayout`
(`App.tsx` lines 193-202). -/
def baseZoomOf (groupCount : ℕ) : ℚ :=
  if groupCount ≤ 2 then 0.8
  else if groupCount ≤ 4 then 0.5
  else if groupCount ≤ 6 then 0.35
  else 0.25

/-- The `densityFactor` selection of `groupedClusterLayout`
(`App.tsx` lines 207-216). -/
def densityFactorOf (avgMetricsPerGroup : ℚ) : ℚ :=
  if avgMetricsPerGroup ≤ 5 then 1.1
  else if avgMetricsPerGroup ≤ 15 then 1.0
  else if avgMetricsPerGroup ≤ 30 then 0.9
  else 0.8

/-- The `autoZoom` computation of `groupedClusterLayout`
(`App.tsx` lines 186-223): band base times density factor, clamped to
`[0.1, 1.0]`. -/
def autoZoom (groupedData : List MetricGroup) : ℚ :=
  let groupCount := groupedData.length
  let totalMetrics := (groupedData.map (fun g => (g.metrics.length : ℚ))).sum
  let avgMetricsPerGroup := totalMetrics / (groupCount : ℚ)
  max 0.1 (min 1.0 (baseZoomOf groupCount * densityFactorOf avgMetricsPerGroup))

/-! Claim C8: auto-zoom from bucket count and density. -/

/-- A one-item bucket used in concrete auto-zoom datasets. -/
def cexGroup (v : String) : MetricGroup := ⟨v, [sampleItem]⟩

/-- A dataset with a single one-item bucket. -/
def cexGroups1 : List MetricGroup := [cexGroup "a"]

/-- A dataset with seven one-item buckets. -/
def cexGroups7 : List MetricGroup :=
  [cexGroup "a", cexGroup "b", cexGroup "c", cexGroup "d",
   cexGroup "e", cexGroup "f", cexGroup "g"]

/-- C8 counterexample: no density factor `d ∈ [0.8, 1.1]` reconciles the
code's auto-zoom with a base factor of `1.0` for the `≤ 2` band and
`0.25` for the `> 6` band: both example datasets have average density 1
(hence a common `d`), yet the code yields `0.88` for one bucket
(forcing `d = 0.88` under base `1.0`) and `0.275` for seven buckets
(while `0.25 * 0.88 = 0.22`).  The first band's base factor is `0.8`,
not the claimed `1.0`. -/
theorem C8_cex_base_band_not_one :
    ¬ ∃ d : ℚ, 0.8 ≤ d ∧ d ≤ 1.1 ∧
        autoZoom cexGroups1 = max 0.1 (min 1 (1 * d)) ∧
        autoZoom cexGroups7 = max 0.1 (min 1 (0.25 * d)) := by
  rintro ⟨d, hd1, hd2, h1, h4⟩
  have e1 : autoZoom cexGroups1 = 0.88 := by
    norm_num [autoZoom, baseZoomOf, densityFactorOf, cexGroups1, cexGroup, sampleItem]
  have e4 : autoZoom cexGroups7 = 0.275 := by
    norm_num [autoZoom, baseZoomOf, densityFactorOf, cexGroups7, cexGroup, sampleItem]
  rw [e1, one_mul] at h1
  rw [e4] at h4
  rcases le_or_lt d 1 with hle | hlt
  · rw [min_eq_right hle, max_eq_right (by linarith)] at h1
    subst h1
    rw [min_eq_right (by norm_num), max_eq_right (by norm_num)] at h4
    norm_num at h4
  · rw [min_eq_left (by linarith), max_eq_right (by norm_num)] at h1
    norm_num at h1

/-- C8 (amended): for every grouped dataset with at least one bucket,
`autoZoom` is the band base factor (0.8 for ≤2 buckets, 0.5 for 3-4,
0.35 for 5-6, 0.25 for >6 — decreasing from 0.8, not 1.0) times a
density factor in `[0.8, 1.1]` determined by the average items per
bucket, clamped to `[0.1, 1.0]`. -/
theorem C8_amended_auto_zoom (gd : List MetricGroup) (hne : gd ≠ []) :
    autoZoom gd =
      max 0.1 (min 1.0 (baseZoomOf gd.length *
        densityFactorOf ((gd.map (fun g => (g.metrics.length : ℚ))).sum / (gd.length : ℚ)))) ∧
    (gd.length ≤ 2 → baseZoomOf gd.length = 0.8) ∧
    ((2 < gd.length ∧ gd.length ≤ 4) → baseZoomOf gd.length = 0.5) ∧
    ((4 < gd.length ∧ gd.length ≤ 6) → baseZoomOf gd.length = 0.35) ∧
    (6 < gd.length → baseZoomOf gd.length = 0.25) ∧
    0.8 ≤ densityFactorOf ((gd.map (fun g => (g.metrics.length : ℚ))).sum / (gd.length : ℚ)) ∧
    densityFactorOf ((gd.map (fun g => (g.metrics.length : ℚ))).sum / (gd.length : ℚ)) ≤ 1.1 ∧
    0.1 ≤ autoZoom gd ∧ autoZoom gd ≤ 1 := by
  refine ⟨rfl, ?_, ?_, ?_, ?_, ?_, ?_, ?_, ?_⟩
  · intro h
    simp only [baseZoomOf, if_pos h]
  · rintro ⟨h1, h2⟩
    simp only [baseZoomOf]
    rw [if_neg (by omega), if_pos h2]
  · rintro ⟨h1, h2⟩
    simp only [baseZoomOf]
    rw [if_neg (by omega), if_neg (by omega), if_pos h2]
  · intro h
    simp only [baseZoomOf]
    rw [if_neg (by omega), if_neg (by omega), if_neg (by omega)]
  · unfold densityFactorOf
    split_ifs <;> norm_num
  · unfold densityFactorOf
    split_ifs <;> norm_num
  · exact le_max_left _ _
  · exact max_le (by norm_num) (le_trans (min_le_left _ _) (by norm_num))

/-- C8 witness: the amended auto-zoom statement on the one-bucket
dataset. -/
theorem C8_witness_auto_zoom :
    autoZoom cexGroups1 =
      max 0.1 (min 1.0 (baseZoomOf cexGroups1.length *
        densityFactorOf ((cexGroups1.map (fun g => (g.metrics.length : ℚ))).sum /
          (cexGroups1.length : ℚ)))) ∧
    (cexGroups1.length ≤ 2 → baseZoomOf cexGroups1.length = 0.8) ∧
    ((2 < cexGroups1.length ∧ cexGroups1.length ≤ 4) → baseZoomOf cexGroups1.length = 0.5) ∧
    ((4 < cexGroups1.length ∧ cexGroups1.length ≤ 6) → baseZoomOf cexGroups1.length = 0.35) ∧
    (6 < cexGroups1.length → baseZoomOf cexGroups1.length = 0.25) ∧
    0.8 ≤ densityFactorOf ((cexGroups1.map (fun g => (g.metrics.length : ℚ))).sum /
      (cexGroups1.length : ℚ)) ∧
    densityFactorOf ((cexGroups1.map (fun g => (g.metrics.length : ℚ))).sum /
      (cexGroups1.length : ℚ)) ≤ 1.1 ∧
    0.1 ≤ autoZoom cexGroups1 ∧ autoZoom cexGroups1 ≤ 1 :=
  C8_amended_auto_zoom cexGroups1 (by simp [cexGroups1])

/-- A drill-down filter entry from `types/polystat.ts` (`GroupFilter`):
label key/value and the hierarchy level. -/
structure GroupFilter where
  labelKey : String
  labelValue : String
  level : ℤ
deriving Repr, DecidableEq

/-- The grouping state from `types/polystat.ts` (`GroupByState`). -/
structure GroupByState where
  isActive : Bool
  groupKey : Option String
  selectedGroupValue : Option String
  previousGroupKey : Option String
  filterStack : List GroupFilter
  currentLevel : ℤ
deriving Repr, DecidableEq

/-- The initial grouping state of `App.tsx` (`useState` initializer):
inactive, empty filter stack, level 0. -/
def initialGroupByState : GroupByState :=
  { isActive := false
    groupKey := none
    selectedGroupValue := none
    previousGroupKey := none
    filterStack := []
    currentLevel := 0 }

/-- `handleGroupClick` from `App.tsx` lines 283-310: clicking the
currently selected group deselects it (pop), clicking another group
drills into it (push an entry at the current level). -/
def handleGroupClickState (prev : GroupByState) (groupValue : String) : GroupByState :=
  if prev.selectedGroupValue = some groupValue then
    { prev with
      selectedGroupValue := none
      previousGroupKey := prev.groupKey
      filterStack := prev.filterStack.dropLast
      currentLevel := max 0 (prev.currentLevel - 1) }
  else
    { prev with
      selectedGroupValue := some groupValue
      previousGroupKey := prev.groupKey
      filterStack := prev.filterStack ++
        [{ labelKey := prev.groupKey.getD ""
           labelValue := groupValue
           level := prev.currentLevel }]
      currentLevel := prev.currentLevel + 1 }

/-- `handleRemoveFilter` from `App.tsx` lines 312-319: truncate the
stack to the given index (`slice(0, index)`). -/
def handleRemoveFilterState (prev : GroupByState) (index : ℕ) : GroupByState :=
  { prev with
    filterStack := prev.filterStack.take index
    currentLevel := (index : ℤ)
    selectedGroupValue := none }

/-- `handleResetGroupBy` from `App.tsx` lines 157-163: clear everything. -/
def handleResetGroupByState : GroupByState :=
  { isActive := false
    groupKey := none
    selectedGroupValue := none
    previousGroupKey := none
    filterStack := []
    currentLevel := 0 }

/-- `handleLabelClick` from `App.tsx` lines 137-155: switch the group
key (keeping the stack) or activate grouping with a fresh stack. -/
def handleLabelClickState (s : GroupByState) (labelKey : String) : GroupByState :=
  if s.isActive = true ∧ s.groupKey ≠ some labelKey then
    { s with
      groupKey := some labelKey
      selectedGroupValue := none
      previousGroupKey := none }
  else if s.isActive = false then
    { isActive := true
      groupKey := some labelKey
      selectedGroupValue := none
      previousGroupKey := none
      filterStack := []
      currentLevel := 0 }
  else s

/-- One user operation on the grouping state. -/
inductive GroupStep : GroupByState → GroupByState → Prop
  | groupClick (s : GroupByState) (v : String) : GroupStep s (handleGroupClickState s v)
  | removeFilter (s : GroupByState) (i : ℕ) (hi : i < s.filterStack.length) :
      GroupStep s (handleRemoveFilterState s i)
  | reset (s : GroupByState) : GroupStep s handleResetGroupByState
  | labelClick (s : GroupByState) (k : String) : GroupStep s (handleLabelClickState s k)

/-- States reachable from the initial grouping state. -/
inductive ReachableGroupState : GroupByState → Prop
  | init : ReachableGroupState initialGroupByState
  | step {s t : GroupByState} :
      ReachableGroupState s → GroupStep s t → ReachableGroupState t

/-- The filter-stack invariant: the current level equals the stack
length and the entry at index `i` has level `i`. -/
def FilterStackInv (s : GroupByState) : Prop :=
  s.currentLevel = s.filterStack.length ∧
  ∀ i (h : i < s.filterStack.length), (s.filterStack.get ⟨i, h⟩).level = i

/-- Every grouping operation preserves the filter-stack invariant. -/
theorem filterStackInv_step (s t : GroupByState) (hst : GroupStep s t)
    (ih : FilterStackInv s) : FilterStackInv t := by
  obtain ⟨ihlen, ihget⟩ := ih
  cases hst with
  | groupClick v =>
    unfold handleGroupClickState
    split_ifs with hsel
    · refine ⟨?_, ?_⟩
      · show max 0 (s.currentLevel - 1) = _
        simp only [List.length_dropLast, ihlen]
        omega
      · intro i hi
        simp only [List.length_dropLast] at hi
        rw [List.get_eq_getElem]
        simp only [List.getElem_dropLast]
        have := ihget i (by omega)
        rw [List.get_eq_getElem] at this
        exact this
    · refine ⟨?_, ?_⟩
      · show s.currentLevel + 1 = _
        simp only [List.length_append, List.length_cons, List.length_nil, ihlen]
        push_cast
        ring
      · intro i hi
        simp only [List.length_append, List.length_cons, List.length_nil] at hi
        rw [List.get_eq_getElem]
        rcases Nat.lt_or_ge i s.filterStack.length with hlt | hge
        · rw [List.getElem_append_left hlt]
          have := ihget i hlt
          rw [List.get_eq_getElem] at this
          exact this
        · have hieq : i = s.filterStack.length := by omega
          subst hieq
          simp only [Fin.val_mk]
          rw [List.getElem_concat_length]
          · exact ihlen
          · rfl
  | removeFilter i hi =>
    unfold handleRemoveFilterState
    refine ⟨?_, ?_⟩
    · show (i : ℤ) = _
      simp only [List.length_take]
      omega
    · intro j hj
      simp only [List.length_take] at hj
      rw [List.get_eq_getElem]
      simp only [List.getElem_take]
      have := ihget j (by omega)
      rw [List.get_eq_getElem] at this
      exact this
  | reset => exact ⟨rfl, fun i hi => absurd hi (by simp [handleResetGroupByState])⟩
  | labelClick k =>
    unfold handleLabelClickState
    split_ifs with h1 h2
    · exact ⟨ihlen, ihget⟩
    · exact ⟨rfl, fun i hi => absurd hi (by simp)⟩
    · exact ⟨ihlen, ihget⟩

/-- The filter-stack invariant holds in every reachable state. -/
theorem filterStackInv_of_reachable (s : GroupByState) (h : ReachableGroupState s) :
    FilterStackInv s := by
  induction h with
  | init => exact ⟨rfl, fun i hi => absurd hi (by simp [initialGroupByState])⟩
  | step hr hstep ih => exact filterStackInv_step _ _ hstep ih

/-! Claim C9: filter-stack level invariant. -/

/-- C9: in every state reachable from the initial grouping state by the
filter-stack operations, the entry at index `i` has level `i`, the
current level equals the stack length, and every drill-down appends an
entry whose level equals the stack length before the append. -/
theorem C9_filter_stack (s : GroupByState) (h : ReachableGroupState s) :
    (∀ i (hi : i < s.filterStack.length), (s.filterStack.get ⟨i, hi⟩).level = i) ∧
    s.currentLevel = s.filterStack.length ∧
    (∀ v, s.selectedGroupValue ≠ some v →
      (handleGroupClickState s v).filterStack =
        s.filterStack ++ [{ labelKey := s.groupKey.getD ""
                            labelValue := v
                            level := (s.filterStack.length : ℤ) }]) := by
  obtain ⟨hlen, hget⟩ := filterStackInv_of_reachable s h
  refine ⟨hget, hlen, ?_⟩
  intro v hv
  rw [handleGroupClickState, if_neg hv]
  simp [hlen]

/-- C9 witness: the invariant at the state reached by one drill-down
from the initial state. -/
theorem C9_witness_filter_stack :
    (∀ i (hi : i < (handleGroupClickState initialGroupByState "x").filterStack.length),
      ((handleGroupClickState initialGroupByState "x").filterStack.get ⟨i, hi⟩).level = i) ∧
    (handleGroupClickState initialGroupByState "x").currentLevel =
      (handleGroupClickState initialGroupByState "x").filterStack.length ∧
    (∀ v, (handleGroupClickState initialGroupByState "x").selectedGroupValue ≠ some v →
      (handleGroupClickState (handleGroupClickState initialGroupByState "x") v).filterStack =
        (handleGroupClickState initialGroupByState "x").filterStack ++
          [{ labelKey := (handleGroupClickState initialGroupByState "x").groupKey.getD ""
             labelValue := v
             level := ((handleGroupClickState initialGroupByState "x").filterStack.length : ℤ) }]) :=
  C9_filter_stack _ (ReachableGroupState.step ReachableGroupState.init
    (GroupStep.groupClick initialGroupByState "x"))

/-- The per-index cell constructor inside the `sortedData.map` of
`calculateHexCoords` (`HexGrid.tsx` lines 246-274): column `index %
cols`, row `index / cols`, honeycomb position with half-cell offset on
odd rows.  The `isNaN/isFinite` fallback to `(0,0)` of the source is
vacuous over ℝ. -/
def hexCell (startX startY horizontalSpacing verticalSpacing rowOffset : ℝ)
    (cols : ℕ) (index : ℕ) (item : MetricPoint) : HexCoord ℝ :=
  let col := index % cols
  let row := index / cols
  let hexOffsetX := if row % 2 = 1 then rowOffset else 0
  { q := col
    r := row
    x := startX + (col : ℝ) * horizontalSpacing + hexOffsetX
    y := startY + (row : ℝ) * verticalSpacing
    data := item }

/-- `calculateHexCoords` from `HexGrid.tsx` lines 209-277: the
honeycomb layout.  Dimension validity (`typeof/isNaN/positive`) is
modelled as positivity; invalid dimensions fall back to 800×600, and
dimensions beyond 5000 yield an empty layout. -/
noncomputable def calculateHexCoords (sortedData : List MetricPoint)
    (containerWidth containerHeight size : ℝ) : List (HexCoord ℝ) :=
  let validWidth := if 0 < containerWidth then containerWidth else 800
  let validHeight := if 0 < containerHeight then containerHeight else 600
  if 5000 < validWidth ∨ 5000 < validHeight then []
  else
    let count := sortedData.length
    let hexWidth := size * Real.sqrt 3
    let hexHeight := size * 2
    let aspectRatio := validWidth / validHeight
    let cols : ℕ := ⌈Real.sqrt (count * aspectRatio)⌉₊
    let rows : ℕ := ⌈(count : ℝ) / (cols : ℝ)⌉₊
    let horizontalSpacing := hexWidth
    let verticalSpacing := hexHeight * 0.75
    let rowOffset := hexWidth / 2
    let inputFieldHeight : ℝ := 0
    let availableHeight := validHeight - inputFieldHeight
    let totalWidth := ((cols : ℝ) - 1) * horizontalSpacing + rowOffset
    let totalHeight := ((rows : ℝ) - 1) * verticalSpacing
    let startX := (validWidth - totalWidth) / 2
    let startY := inputFieldHeight + (availableHeight - totalHeight) / 2
    sortedData.mapIdx (hexCell startX startY horizontalSpacing verticalSpacing rowOffset cols)

/-- Indexing a `mapIdx` result, with the bound stated on the result. -/
theorem get_mapIdx_of_lt (l : List MetricPoint) (f : ℕ → MetricPoint → HexCoord ℝ)
    (i : ℕ) (h : i < (l.mapIdx f).length) :
    (l.mapIdx f).get ⟨i, h⟩ = f i (l.get ⟨i, by simpa using h⟩) :=
  List.get_mapIdx l f i (by simpa using h) h

/-- Distinct naturals are at least 1 apart after casting to ℝ. -/
theorem one_le_abs_cast_sub (a b : ℕ) (hne : a ≠ b) : (1 : ℝ) ≤ |(a : ℝ) - (b : ℝ)| := by
  have hz : ((a : ℤ) - (b : ℤ)) ≠ 0 := by omega
  have h2 : (1 : ℤ) ≤ |(a : ℤ) - (b : ℤ)| := by
    rcases hz.lt_or_lt with h | h
    · rw [abs_of_neg h]
      omega
    · rw [abs_of_pos h]
      omega
  exact_mod_cast h2

/-- Column of a layout cell. -/
theorem hexCell_q (sx sy hs vs ro : ℝ) (cols i : ℕ) (a : MetricPoint) :
    (hexCell sx sy hs vs ro cols i a).q = i % cols := rfl

/-- Row of a layout cell. -/
theorem hexCell_r (sx sy hs vs ro : ℝ) (cols i : ℕ) (a : MetricPoint) :
    (hexCell sx sy hs vs ro cols i a).r = i / cols := rfl

/-- Horizontal position of a layout cell. -/
theorem hexCell_x (sx sy hs vs ro : ℝ) (cols i : ℕ) (a : MetricPoint) :
    (hexCell sx sy hs vs ro cols i a).x =
      sx + (↑(i % cols) : ℝ) * hs + (if (i / cols) % 2 = 1 then ro else 0) := rfl

/-- Vertical position of a layout cell. -/
theorem hexCell_y (sx sy hs vs ro : ℝ) (cols i : ℕ) (a : MetricPoint) :
    (hexCell sx sy hs vs ro cols i a).y = sy + (↑(i / cols) : ℝ) * vs := rfl

/-- Two distinct cells in the same row are at least one horizontal
spacing apart. -/
theorem hexCell_spacing (sx sy hs vs ro : ℝ) (cols : ℕ) (hhs : 0 ≤ hs)
    (i j : ℕ) (a b : MetricPoint) (hne : i ≠ j)
    (hrow : (hexCell sx sy hs vs ro cols i a).r = (hexCell sx sy hs vs ro cols j b).r) :
    hs ≤ |(hexCell sx sy hs vs ro cols i a).x - (hexCell sx sy hs vs ro cols j b).x| := by
  rw [hexCell_r, hexCell_r] at hrow
  rw [hexCell_x, hexCell_x, hrow]
  have hmod : i % cols ≠ j % cols := by
    intro hmodeq
    have hi := Nat.div_add_mod i cols
    have hj := Nat.div_add_mod j cols
    rw [hrow, hmodeq] at hi
    omega
  have hdiff : sx + (↑(i % cols) : ℝ) * hs + (if (j / cols) % 2 = 1 then ro else 0)
      - (sx + (↑(j % cols) : ℝ) * hs + (if (j / cols) % 2 = 1 then ro else 0))
      = ((↑(i % cols) : ℝ) - ↑(j % cols)) * hs := by ring
  rw [hdiff, abs_mul, abs_of_nonneg hhs]
  have h1 := one_le_abs_cast_sub (i % cols) (j % cols) hmod
  have h2 := mul_le_mul_of_nonneg_right h1 hhs
  linarith

/-- Cells in adjacent rows are exactly one vertical spacing apart. -/
theorem hexCell_row_spacing (sx sy hs vs ro : ℝ) (cols : ℕ)
    (i j : ℕ) (a b : MetricPoint)
    (hrow : (hexCell sx sy hs vs ro cols j b).r = (hexCell sx sy hs vs ro cols i a).r + 1) :
    (hexCell sx sy hs vs ro cols j b).y - (hexCell sx sy hs vs ro cols i a).y = vs := by
  rw [hexCell_r, hexCell_r] at hrow
  rw [hexCell_y, hexCell_y, hrow]
  push_cast
  ring

/-- Inversion for optional indexing into a `mapIdx` result. -/
theorem getElem?_mapIdx_eq_some {l : List MetricPoint} {f : ℕ → MetricPoint → HexCoord ℝ}
    {i : ℕ} {c : HexCoord ℝ} (h : (l.mapIdx f)[i]? = some c) :
    ∃ (hi : i < l.length), c = f i (l.get ⟨i, hi⟩) := by
  have hlen : i < l.length := by
    by_contra hge
    rw [List.getElem?_eq_none (by simpa using Nat.le_of_not_lt hge)] at h
    exact Option.noConfusion h
  refine ⟨hlen, ?_⟩
  rw [List.getElem?_eq_getElem (by simpa using hlen)] at h
  injection h with h
  rw [← h]
  simpa [List.get_eq_getElem] using List.get_mapIdx l f i hlen

/-! Claim C4: honeycomb layout shape. -/

/-- C4: for a non-empty item list, a valid rect (positive dimensions at
most 5000) and a positive cell radius, the layout returns exactly one
cell per item; two distinct cells in the same row are at least
`size*sqrt(3)` apart horizontally, and a cell one row below another is
exactly `0.75*(2*size)` below it.  (All coordinates are real numbers
of the model, hence finite.) -/
theorem C4_layout (d : List MetricPoint) (w h size : ℝ)
    (hd : d ≠ []) (hw0 : 0 < w) (hw5 : w ≤ 5000) (hh0 : 0 < h) (hh5 : h ≤ 5000)
    (hs : 0 < size) :
    (calculateHexCoords d w h size).length = d.length ∧
    (∀ (i j : ℕ) (ci cj : HexCoord ℝ), i ≠ j →
      (calculateHexCoords d w h size)[i]? = some ci →
      (calculateHexCoords d w h size)[j]? = some cj →
      ci.r = cj.r →
      size * Real.sqrt 3 ≤ |ci.x - cj.x|) ∧
    (∀ (i j : ℕ) (ci cj : HexCoord ℝ),
      (calculateHexCoords d w h size)[i]? = some ci →
      (calculateHexCoords d w h size)[j]? = some cj →
      cj.r = ci.r + 1 →
      cj.y - ci.y = 0.75 * (2 * size)) := by
  have hcond : ¬ (5000 < (if 0 < w then w else 800) ∨ 5000 < (if 0 < h then h else 600)) := by
    rw [if_pos hw0, if_pos hh0]
    push_neg
    exact ⟨hw5, hh5⟩
  simp only [calculateHexCoords, if_neg hcond]
  refine ⟨by simp, ?_, ?_⟩
  · intro i j ci cj hne h1 h2 hrow
    obtain ⟨hi, rfl⟩ := getElem?_mapIdx_eq_some h1
    obtain ⟨hj, rfl⟩ := getElem?_mapIdx_eq_some h2
    exact hexCell_spacing _ _ _ _ _ _
      (mul_nonneg hs.le (Real.sqrt_nonneg 3)) i j _ _ hne hrow
  · intro i j ci cj h1 h2 hrow
    obtain ⟨hi, rfl⟩ := getElem?_mapIdx_eq_some h1
    obtain ⟨hj, rfl⟩ := getElem?_mapIdx_eq_some h2
    have := hexCell_row_spacing _ _ _ (size * 2 * 0.75) _ _ i j _ _ hrow
    linarith

/-! Claim C5: degenerate rectangles. -/

/-- C5 counterexample: with a non-positive width the layout does not
return an empty list — the code substitutes the 800×600 fallback and
lays out every item. -/
theorem C5_cex_nonpositive_width_not_empty :
    calculateHexCoords [sampleItem] 0 600 10 ≠ [] := by
  have hlen : (calculateHexCoords [sampleItem] 0 600 10).length = 1 := by
    simp only [calculateHexCoords]
    rw [if_neg (lt_irrefl (0 : ℝ)), if_pos (by norm_num : (0 : ℝ) < 600),
      if_neg (by norm_num : ¬ ((5000 : ℝ) < 800 ∨ (5000 : ℝ) < 600))]
    simp
  intro hnil
  rw [hnil] at hlen
  simp at hlen

/-- C5 (amended): the layout returns an empty list when a dimension
exceeds the sanity maximum 5000; a non-positive dimension is instead
replaced by the 800×600 fallback and the layout still returns one cell
per item (and, being a total function, never throws). -/
theorem C5_amended_degenerate (d : List MetricPoint) (w h size : ℝ) :
    ((5000 < w ∨ 5000 < h) → calculateHexCoords d w h size = []) ∧
    ((w ≤ 0 ∧ 0 < h ∧ h ≤ 5000) → (calculateHexCoords d w h size).length = d.length) := by
  constructor
  · intro hcase
    simp only [calculateHexCoords]
    rw [if_pos]
    rcases hcase with hw | hh
    · left
      rwa [if_pos (by linarith)]
    · right
      rwa [if_pos (by linarith)]
  · rintro ⟨hw, hh0, hh5⟩
    simp only [calculateHexCoords]
    rw [if_neg (not_lt.mpr hw), if_pos hh0,
      if_neg (by push_neg; exact ⟨by norm_num, hh5⟩)]
    simp

/-- C5 witness: an oversized rect yields the empty layout. -/
theorem C5_witness_oversized_rect :
    calculateHexCoords [sampleItem] 6000 600 10 = [] :=
  (C5_amended_degenerate [sampleItem] 6000 600 10).1 (Or.inl (by norm_num))

/-- C4 witness: the layout shape at one item in an 800×600 rect with
radius 10. -/
theorem C4_witness_layout :
    (calculateHexCoords [sampleItem] 800 600 10).length = [sampleItem].length ∧
    (∀ (i j : ℕ) (ci cj : HexCoord ℝ), i ≠ j →
      (calculateHexCoords [sampleItem] 800 600 10)[i]? = some ci →
      (calculateHexCoords [sampleItem] 800 600 10)[j]? = some cj →
      ci.r = cj.r →
      10 * Real.sqrt 3 ≤ |ci.x - cj.x|) ∧
    (∀ (i j : ℕ) (ci cj : HexCoord ℝ),
      (calculateHexCoords [sampleItem] 800 600 10)[i]? = some ci →
      (calculateHexCoords [sampleItem] 800 600 10)[j]? = some cj →
      cj.r = ci.r + 1 →
      cj.y - ci.y = 0.75 * (2 * 10)) :=
  C4_layout [sampleItem] 800 600 10 (by simp) (by norm_num) (by norm_num)
    (by norm_num) (by norm_num) (by norm_num)

/-- Termination measure for the font-shrinking loop: one shrink step by
factor 0.9 strictly decreases `⌈(f/minA)^10⌉₊` while `f` is above the
floor, because `0.9^10 < 0.35`. -/
theorem shrink_measure_lt (minA f : ℝ) (h0 : 0 < minA) (h1 : minA < f) :
    ⌈(f * 0.9 / minA) ^ 10⌉₊ < ⌈(f / minA) ^ 10⌉₊ := by
  have hx : (1 : ℝ) < f / minA := (one_lt_div h0).mpr h1
  have hx10 : (1 : ℝ) < (f / minA) ^ 10 := one_lt_pow₀ hx (by norm_num)
  have harg : f * 0.9 / minA = 0.9 * (f / minA) := by ring
  rw [harg, mul_pow]
  set x := f / minA with hxdef
  set n := ⌈x ^ 10⌉₊ with hndef
  have hn2 : 2 ≤ n := by
    have : 1 < n := Nat.lt_ceil.mpr (by exact_mod_cast hx10)
    omega
  have hn2R : (2 : ℝ) ≤ (n : ℝ) := by exact_mod_cast hn2
  have hxn : x ^ 10 ≤ (n : ℝ) := Nat.le_ceil _
  have hxpos : (0 : ℝ) < x ^ 10 := by positivity
  have hle : (0.9 : ℝ) ^ 10 * x ^ 10 ≤ ((n - 1 : ℕ) : ℝ) := by
    rw [Nat.cast_sub (by omega : 1 ≤ n)]
    have h35 : (0.9 : ℝ) ^ 10 ≤ 0.35 := by norm_num
    nlinarith
  have hfin : ⌈(0.9 : ℝ) ^ 10 * x ^ 10⌉₊ ≤ n - 1 := Nat.ceil_le.mpr hle
  omega

/-- The `while (textWidth > availableLogicalWidth && optimalFontSize >
minAcceptableSize) optimalFontSize *= 0.90` loop of `prepareText`
(`Hexagon.tsx` lines 107-116), parametric in the text-measurement
function `mt` (the DOM `measureText`); the positivity of the floor is
carried as an argument since it drives termination (the call site
always satisfies it, the floor being at least 4). -/
noncomputable def shrinkLoop (mt : String → ℝ → ℝ) (text : String)
    (avail minA : ℝ) (hminA : 0 < minA) (f : ℝ) : ℝ :=
  if h : avail < mt text f ∧ minA < f then
    shrinkLoop mt text avail minA hminA (f * 0.9)
  else f
termination_by ⌈(f / minA) ^ 10⌉₊
decreasing_by exact shrink_measure_lt minA f hminA h.2

/-- The font-size computation of `prepareText` (`Hexagon.tsx` lines
91-130): hexagon width at the line's vertical offset, geometric (×0.9)
shrinking down to the floor `max(4, 0.4*maxFontSize)`, then a single
proportional correction floored at 2 if the text still overflows. -/
noncomputable def prepareTextFont (mt : String → ℝ → ℝ) (text : String)
    (maxFontSize yPosition validY validSize : ℝ) : ℝ :=
  let logicalHexWidth := validSize * Real.sqrt 3
  let relativeY := (yPosition - validY) / validSize
  let availableLogicalWidth :=
    if |relativeY| ≤ 0.3 then logicalHexWidth * 0.85
    else if |relativeY| ≤ 0.6 then
      logicalHexWidth * (0.85 - ((|relativeY| - 0.3) / 0.3) * 0.25)
    else logicalHexWidth * (0.60 - ((|relativeY| - 0.6) / 0.4) * 0.20)
  let minAcceptableSize := max 4 (maxFontSize * 0.4)
  let optimalFontSize := shrinkLoop mt text availableLogicalWidth minAcceptableSize
    (lt_of_lt_of_le (by norm_num) (le_max_left 4 (maxFontSize * 0.4))) maxFontSize
  if availableLogicalWidth < mt text optimalFontSize then
    max 2 ((availableLogicalWidth / mt text optimalFontSize) * optimalFontSize)
  else optimalFontSize

/-- The shrink loop terminates with `f * 0.9^k` for some `k`, and at
exit either the text fits or the size is at or below the floor. -/
theorem shrinkLoop_spec (mt : String → ℝ → ℝ) (text : String) (avail minA : ℝ)
    (hm : 0 < minA) (f : ℝ) :
    ∃ k : ℕ, shrinkLoop mt text avail minA hm f = f * 0.9 ^ k ∧
      (mt text (shrinkLoop mt text avail minA hm f) ≤ avail ∨
        shrinkLoop mt text avail minA hm f ≤ minA) := by
  generalize hmu : ⌈(f / minA) ^ 10⌉₊ = mu
  induction mu using Nat.strong_induction_on generalizing f with
  | _ mu ih =>
    rw [shrinkLoop]
    split_ifs with h
    · obtain ⟨k, hk1, hk2⟩ := ih ⌈(f * 0.9 / minA) ^ 10⌉₊
        (hmu ▸ shrink_measure_lt minA f hm h.2) (f * 0.9) rfl
      refine ⟨k + 1, ?_, hk2⟩
      rw [hk1]
      ring
    · push_neg at h
      refine ⟨0, by ring, ?_⟩
      by_cases hlt : avail < mt text f
      · exact Or.inr (h hlt)
      · exact Or.inl (not_lt.mp hlt)

/-- With a floor of at least 4, the shrink loop never drops a starting
size of at least 2 below 2 (a step from above the floor lands above
3.6). -/
theorem shrinkLoop_ge_two (mt : String → ℝ → ℝ) (text : String) (avail minA : ℝ)
    (hm : 0 < minA) (hm4 : 4 ≤ minA) (f : ℝ) (hf : 2 ≤ f) :
    2 ≤ shrinkLoop mt text avail minA hm f := by
  generalize hmu : ⌈(f / minA) ^ 10⌉₊ = mu
  induction mu using Nat.strong_induction_on generalizing f with
  | _ mu ih =>
    rw [shrinkLoop]
    split_ifs with h
    · exact ih ⌈(f * 0.9 / minA) ^ 10⌉₊ (hmu ▸ shrink_measure_lt minA f hm h.2)
        (f * 0.9) (by nlinarith [h.2]) rfl
    · exact hf

/-! Claim C10: font shrinking termination and lower bound. -/

/-- C10 (amended): for every text, measurement function with
nonnegative widths, and inputs, the shrinking loop terminates — its
result is `start * 0.9^k` for some `k`, and at exit the text fits or
the size is at or below the floor `max(4, 0.4*start)` — and the
returned font size of the full procedure is at least 2 whenever the
starting size is at least 2 (a starting size below 2 whose text
already fits is returned unchanged, below 2). -/
theorem C10_amended_font_shrink (mt : String → ℝ → ℝ) (text : String)
    (hmt : ∀ t g, 0 ≤ mt t g) :
    (∀ (avail minA : ℝ) (hm : 0 < minA) (f : ℝ),
      ∃ k : ℕ, shrinkLoop mt text avail minA hm f = f * 0.9 ^ k ∧
        (mt text (shrinkLoop mt text avail minA hm f) ≤ avail ∨
          shrinkLoop mt text avail minA hm f ≤ minA)) ∧
    (∀ (maxFontSize yPosition validY validSize : ℝ), 2 ≤ maxFontSize →
      2 ≤ prepareTextFont mt text maxFontSize yPosition validY validSize) := by
  refine ⟨fun avail minA hm f => shrinkLoop_spec mt text avail minA hm f, ?_⟩
  intro maxFontSize yPosition validY validSize hfs
  simp only [prepareTextFont]
  split_ifs
  all_goals first
    | exact le_max_left _ _
    | exact shrinkLoop_ge_two mt text _ _ _ (le_max_left 4 _) maxFontSize hfs

/-- A total text-measurement function with constant zero width. -/
def cexMeasure : String → ℝ → ℝ := fun _ _ => 0

/-- C10 counterexample: with the zero-width measurement function and
starting font size 1, the loop and the correction are both skipped and
the procedure returns 1 < 2 — the returned size is not always at
least 2. -/
theorem C10_cex_small_start :
    (∀ t g, 0 ≤ cexMeasure t g) ∧
    prepareTextFont cexMeasure "a" 1 5 5 10 < 2 := by
  constructor
  · intro t g
    exact le_refl 0
  · have heval : prepareTextFont cexMeasure "a" 1 5 5 10 = 1 := by
      simp only [prepareTextFont, cexMeasure]
      norm_num
      rw [if_neg (not_lt.mpr (by positivity))]
      rw [shrinkLoop]
      rw [dif_neg (by norm_num [cexMeasure])]
    rw [heval]
    norm_num

/-- C10 witness: the amended statement at the zero-width measurement
function. -/
theorem C10_witness_font_shrink :
    (∀ (avail minA : ℝ) (hm : 0 < minA) (f : ℝ),
      ∃ k : ℕ, shrinkLoop cexMeasure "b" avail minA hm f = f * 0.9 ^ k ∧
        (cexMeasure "b" (shrinkLoop cexMeasure "b" avail minA hm f) ≤ avail ∨
          shrinkLoop cexMeasure "b" avail minA hm f ≤ minA)) ∧
    (∀ (maxFontSize yPosition validY validSize : ℝ), 2 ≤ maxFontSize →
      2 ≤ prepareTextFont cexMeasure "b" maxFontSize yPosition validY validSize) :=
  C10_amended_font_shrink cexMeasure "b" (fun t g => le_refl 0)

end Polystat
